import Mathlib

/-!
Verification of the abyssa-js hierarchical client-side router (src/Router.js)
against its natural-language specification, via a shallow embedding in Lean.

Pure functions of the source (paramDiff, isSameState, addState, backTo,
toCrossroadsParams, fromCrossroadsParams) are translated directly; the stateful
orchestration of setState and the transition settlement callbacks are embedded
as explicit state passing over a RouterState record.  Collaborators that are
not part of src/ (the Transition and StateWithParams modules, the util module,
the crossroads routing table and the signals event bus) are modelled from the
specification where indicated in doc comments.
-/

namespace Abyssa

/-- A JavaScript parameter value as the router sees it: a string or a number.
The routing table typecasts values (roads.shouldTypecast = true in
src/Router.js line 40), so numeric path and query items arrive as numbers;
the model restricts numbers to integers (e.g. the id 33 of the spec). -/
inductive Value where
  | str : String → Value
  | num : Int → Value
deriving DecidableEq, Repr

/-- A flat parameter mapping, as an association list of names to values
(a JavaScript object has each key at most once; theorems that need this
carry a Nodup hypothesis on the keys). -/
abbrev Params := List (String × Value)

/-- The keys of a parameter mapping. -/
def pkeys (l : Params) : List String := l.map Prod.fst

/-- The decimal digit character for a digit below ten. -/
def digitChar : Nat → Char
  | 0 => '0' | 1 => '1' | 2 => '2' | 3 => '3' | 4 => '4'
  | 5 => '5' | 6 => '6' | 7 => '7' | 8 => '8' | _ => '9'

/-- Numeric value of a decimal digit character. -/
def digitVal (c : Char) : Nat := c.toNat - 48

/-- Reads a digit string (most significant first) as a natural number. -/
def digitsToNat (l : List Char) : Nat := l.foldl (fun a c => 10 * a + digitVal c) 0

/-- Decimal digits of a natural number, fuelled so that the kernel can
evaluate it (fuel natDigitsAux is always called with enough fuel). -/
def natDigitsAux : Nat → Nat → List Char
  | 0, _ => []
  | fuel + 1, n =>
    if n < 10 then [digitChar n]
    else natDigitsAux fuel (n / 10) ++ [digitChar (n % 10)]

/-- Decimal digit characters of a natural number, most significant first. -/
def natDigits (n : Nat) : List Char := natDigitsAux (n + 1) n

theorem digitsToNat_append_one (l : List Char) (c : Char) :
    digitsToNat (l ++ [c]) = 10 * digitsToNat l + digitVal c := by
  simp [digitsToNat, List.foldl_append]

theorem digitVal_digitChar {d : Nat} (h : d < 10) : digitVal (digitChar d) = d := by
  interval_cases d <;> decide

theorem isDigit_digitChar {d : Nat} (h : d < 10) : (digitChar d).isDigit = true := by
  interval_cases d <;> decide

theorem natDigitsAux_spec :
    ∀ fuel n, n < fuel →
      digitsToNat (natDigitsAux fuel n) = n ∧ natDigitsAux fuel n ≠ [] ∧
      ∀ c ∈ natDigitsAux fuel n, c.isDigit = true := by
  intro fuel
  induction fuel with
  | zero => intro n h; omega
  | succ f ih =>
    intro n h
    by_cases h10 : n < 10
    · refine ⟨?_, ?_, ?_⟩
      · simp [natDigitsAux, h10, digitsToNat, digitVal_digitChar h10]
      · simp [natDigitsAux, h10]
      · intro c hc
        simp [natDigitsAux, h10] at hc
        subst hc
        exact isDigit_digitChar h10
    · have hrec : n / 10 < f := by
        have h1 : n / 10 < n := Nat.div_lt_self (by omega) (by omega)
        omega
      obtain ⟨hval, hne, hdig⟩ := ih (n / 10) hrec
      refine ⟨?_, ?_, ?_⟩
      · simp only [natDigitsAux, if_neg h10]
        rw [digitsToNat_append_one, hval, digitVal_digitChar (Nat.mod_lt n (by omega))]
        omega
      · simp [natDigitsAux, h10]
      · intro c hc
        simp only [natDigitsAux, if_neg h10, List.mem_append, List.mem_singleton] at hc
        rcases hc with hc | hc
        · exact hdig c hc
        · subst hc; exact isDigit_digitChar (Nat.mod_lt n (by omega))

theorem natDigits_roundtrip (n : Nat) : digitsToNat (natDigits n) = n :=
  (natDigitsAux_spec (n + 1) n (by omega)).1

theorem natDigits_ne_nil (n : Nat) : natDigits n ≠ [] :=
  (natDigitsAux_spec (n + 1) n (by omega)).2.1

theorem natDigits_all_digits (n : Nat) : ∀ c ∈ natDigits n, c.isDigit = true :=
  (natDigitsAux_spec (n + 1) n (by omega)).2.2

/-- Parses a non-empty all-digit character list as a natural number. -/
def parseNatDigits? (l : List Char) : Option Nat :=
  if l ≠ [] ∧ l.all Char.isDigit then some (digitsToNat l) else none

/-- Parses a character list as a (signed, decimal, integral) number. -/
def parseIntList? : List Char → Option Int
  | [] => none
  | c :: rest =>
    if c = '-' then (parseNatDigits? rest).map (fun n => -(n : Int))
    else (parseNatDigits? (c :: rest)).map (fun n => (n : Int))

/-- Parses a string as a (signed, decimal, integral) JavaScript number;
none when the string is not numeric. -/
def parseInt? (s : String) : Option Int := parseIntList? s.data

/-- Prints an integer in decimal, as JavaScript string conversion does. -/
def intToString : Int → String
  | .ofNat n => { data := natDigits n }
  | .negSucc n => { data := '-' :: natDigits (n + 1) }

theorem parseNatDigits_natDigits (n : Nat) : parseNatDigits? (natDigits n) = some n := by
  rw [parseNatDigits?, if_pos, natDigits_roundtrip]
  exact ⟨natDigits_ne_nil n, by rw [List.all_eq_true]; exact natDigits_all_digits n⟩

theorem parseInt_intToString (i : Int) : parseInt? (intToString i) = some i := by
  cases i with
  | ofNat n =>
    show parseIntList? (natDigits n) = some (Int.ofNat n)
    rcases hd : natDigits n with _ | ⟨c, cs⟩
    · exact absurd hd (natDigits_ne_nil n)
    · have hdig : c.isDigit = true := natDigits_all_digits n c (by rw [hd]; exact List.mem_cons_self _ _)
      have hne : ¬(c = '-') := by
        intro hcc
        rw [hcc] at hdig
        exact absurd hdig (by decide)
      rw [parseIntList?, if_neg hne, ← hd, parseNatDigits_natDigits]
      rfl
  | negSucc n =>
    show parseIntList? ('-' :: natDigits (n + 1)) = some (Int.negSucc n)
    rw [parseIntList?, if_pos rfl, parseNatDigits_natDigits]
    simp [Int.negSucc_eq]

/-- JavaScript ToNumber on a string restricted to the model's integral
numbers: whitespace-trimmed, the empty string reads as zero. -/
def toNumber? (s : String) : Option Int :=
  if s.trim = "" then some 0 else parseInt? s.trim

/-- JavaScript loose equality between two parameter values: same-type
comparison is structural, a string and a number compare via ToNumber. -/
def valueLooseEq : Value → Value → Bool
  | .str s, .str t => s == t
  | .num a, .num b => a == b
  | .str s, .num b => toNumber? s == some b
  | .num a, .str t => toNumber? t == some a

/-- JavaScript loose equality between possibly-absent property reads:
an absent property reads as undefined, which is loosely equal only to
undefined (our values are strings and numbers, never null). -/
def jsLooseEq : Option Value → Option Value → Bool
  | none, none => true
  | none, some _ => false
  | some _, none => false
  | some v, some w => valueLooseEq v w

/-- Boolean membership of a string in a string list. -/
def memb (k : String) (l : List String) : Bool := l.any (fun x => x == k)

theorem memb_iff {k : String} {l : List String} : memb k l = true ↔ k ∈ l := by
  rw [memb, List.any_eq_true]
  constructor
  · rintro ⟨x, hx, he⟩
    exact (eq_of_beq he) ▸ hx
  · intro h
    exact ⟨k, h, beq_self_eq_true k⟩

/-- Translation of paramDiff (src/Router.js lines 183-194): the set of names
that were added, removed or changed between the two mappings, collected by
iterating the old mapping's keys and then the new mapping's keys (a name seen
in both walks enters the diff object once); the first argument is optional
because setState passes fromState && fromState.params and the source defaults
a missing argument to the empty object. -/
def paramDiff (oldParams : Option Params) (newParams : Params) : List String :=
  let o := oldParams.getD []
  let d1 := (pkeys o).filter (fun k => !jsLooseEq (List.lookup k o) (List.lookup k newParams))
  let d2 := (pkeys newParams).filter
    (fun k => !jsLooseEq (List.lookup k o) (List.lookup k newParams) && !memb k d1)
  d1 ++ d2

theorem lookup_isSome_iff {l : Params} {k : String} :
    (List.lookup k l).isSome = true ↔ k ∈ pkeys l := by
  induction l with
  | nil => simp [pkeys]
  | cons kv t ih =>
    obtain ⟨a, b⟩ := kv
    by_cases hk : k = a
    · subst hk
      simp [List.lookup, pkeys]
    · have hb : (k == a) = false := beq_false_of_ne hk
      simp only [List.lookup, hb, pkeys, List.map_cons, List.mem_cons]
      rw [pkeys] at ih
      rw [ih]
      simp [hk]

theorem lookup_eq_none_of_not_mem {l : Params} {k : String} (h : k ∉ pkeys l) :
    List.lookup k l = none := by
  rcases ho : List.lookup k l with _ | v
  · rfl
  · exact absurd (lookup_isSome_iff.mp (by rw [ho]; rfl)) h

/-- C4: a name is in the parameter diff exactly when it appears in exactly
one of the two mappings, or appears in both with different (type-coerced,
i.e. loosely unequal) values; and the three concrete examples of the spec. -/
theorem paramDiff_spec :
    (∀ (o n : Params) (k : String),
      k ∈ paramDiff (some o) n ↔
        ((k ∈ pkeys o ∧ k ∉ pkeys n) ∨ (k ∉ pkeys o ∧ k ∈ pkeys n) ∨
         (k ∈ pkeys o ∧ k ∈ pkeys n ∧
          valueLooseEq ((List.lookup k o).getD (Value.num 0)) ((List.lookup k n).getD (Value.num 0)) = false)))
    ∧ paramDiff (some [("a", Value.num 1), ("b", Value.num 2)]) [("a", Value.num 1), ("b", Value.num 3)] = ["b"]
    ∧ paramDiff (some []) [("a", Value.num 1)] = ["a"]
    ∧ paramDiff (some [("a", Value.num 1)]) [("a", Value.num 1)] = [] := by
  refine ⟨?_, by decide, by decide, by decide⟩
  intro o n k
  have hmem : k ∈ paramDiff (some o) n ↔
      (k ∈ pkeys o ∨ k ∈ pkeys n) ∧ jsLooseEq (List.lookup k o) (List.lookup k n) = false := by
    simp only [paramDiff, Option.getD, List.mem_append, List.mem_filter, Bool.not_eq_true',
      Bool.and_eq_true, Bool.not_eq_true]
    constructor
    · rintro (⟨hk, hne⟩ | ⟨hk, hne, _⟩)
      · exact ⟨Or.inl hk, hne⟩
      · exact ⟨Or.inr hk, hne⟩
    · rintro ⟨hk | hk, hne⟩
      · exact Or.inl ⟨hk, hne⟩
      · by_cases ho : k ∈ pkeys o
        · exact Or.inl ⟨ho, hne⟩
        · refine Or.inr ⟨hk, hne, ?_⟩
          rw [Bool.eq_false_iff]
          intro hmb
          have hk2 := memb_iff.mp hmb
          simp only [List.mem_filter] at hk2
          exact ho hk2.1
  rw [hmem]
  by_cases ho : k ∈ pkeys o <;> by_cases hn : k ∈ pkeys n
  · obtain ⟨v, hv⟩ := Option.isSome_iff_exists.mp (lookup_isSome_iff.mpr ho)
    obtain ⟨w, hw⟩ := Option.isSome_iff_exists.mp (lookup_isSome_iff.mpr hn)
    simp [ho, hn, hv, hw, jsLooseEq]
  · obtain ⟨v, hv⟩ := Option.isSome_iff_exists.mp (lookup_isSome_iff.mpr ho)
    simp [ho, hn, hv, lookup_eq_none_of_not_mem hn, jsLooseEq]
  · obtain ⟨w, hw⟩ := Option.isSome_iff_exists.mp (lookup_isSome_iff.mpr hn)
    simp [ho, hn, hw, lookup_eq_none_of_not_mem ho, jsLooseEq]
  · simp [ho, hn, lookup_eq_none_of_not_mem ho, lookup_eq_none_of_not_mem hn, jsLooseEq]

/-- A state of the router, identified by name (the source compares state
objects by reference; full names of navigable states are unique, so name
identity is reference identity). -/
structure State where
  name : String
deriving DecidableEq, Repr

/-- Modelled from the spec: StateWithParams.js is not under src; section 3
describes it as an immutable pairing of a State, a flat parameter mapping and
the literal location string it was resolved from (the source sets the
location through the private pathQuery property after construction, so the
constructor leaves it absent). -/
structure StateWithParams where
  state : State
  params : Params
  pathQuery : Option String
deriving DecidableEq, Repr

/-- Modelled from the spec: Transition.js is not under src. The handle the
router consumes (spec section 4.3) carries the source StateWithParams, the
target StateWithParams (exposing to and toParams), the parameter diff and the
reload flag. -/
structure Transition where
  fromState : Option StateWithParams
  toState : StateWithParams
  diff : List String
  reload : Bool
deriving DecidableEq, Repr

/-- Modelled from the spec: the currentState property of the transition handle
that src/Router.js line 57 reads when superseding. Per the supersession rule
of spec section 4.4, the new transition's source becomes the stale
transition's target, so the state the router observes on a cancelled
transition is its target state. -/
def Transition.currentState (t : Transition) : State := t.toState.state

/-- The lifecycle events of the router, as dispatched on the signals event
bus (src/Router.js lines 475-504). Payloads are the to and from values
passed to dispatch. -/
inductive Event where
  | started (tgt src : Option StateWithParams)
  | completed (tgt src : Option StateWithParams)
  | failed (tgt src : Option StateWithParams)
  | cancelled (tgt src : Option StateWithParams)
  | ended (tgt src : Option StateWithParams)
  | initialized
deriving DecidableEq, Repr

/-- The mutable variables of one Router instance (src/Router.js lines 20-36)
together with an explicit model of the history collaborator: the stack of
entry payloads (the literal location persisted on each push or replace) and a
counter of pushState calls. -/
structure RouterState where
  currentState : Option StateWithParams
  transition : Option Transition
  currentPathQuery : Option String
  firstTransition : Bool
  poppedState : Bool
  initializedDispatched : Bool
  history : List (Option String)
  pushes : Nat
deriving DecidableEq, Repr

/-- history.replaceState: replaces the newest history entry. -/
def replaceEntry (h : List (Option String)) (x : Option String) : List (Option String) :=
  h.dropLast ++ [x]

/-- Translation of isSameState (src/Router.js lines 163-178): the request is
compared against the in-flight transition's target if any, else against the
settled current state; parameter equality is an empty paramDiff. When neither
exists the undefined comparison state never equals the requested state. -/
def isSameState (rs : RouterState) (newState : State) (newParams : Params) : Bool :=
  match rs.transition with
  | some t => newState == t.toState.state && (paramDiff (some t.toState.params) newParams).isEmpty
  | none =>
    match rs.currentState with
    | some c => newState == c.state && (paramDiff (some c.params) newParams).isEmpty
    | none => false

/-- Translation of setState (src/Router.js lines 49-79), the synchronous part
up to the creation of the new transition. Returns the updated router state
and the lifecycle events dispatched, in dispatch order: when an in-flight
transition exists it is cancelled first (cancelTransition, lines 105-113,
which also clears the firstTransition flag and dispatches cancelled, whose
bus listener synchronously dispatches ended), the source of the new
transition is built from the stale transition's currentState and toParams,
the current state is optimistically set to the target, a popped request
reverts the address to the outgoing state's location, and started is
dispatched before the new Transition is created. -/
def setState (rs : RouterState) (state : State) (params : Params) (reload : Bool) :
    RouterState × List Event :=
  if !reload && isSameState rs state params then (rs, [])
  else
    let toS : StateWithParams := ⟨state, params, rs.currentPathQuery⟩
    let fromS : Option StateWithParams :=
      match rs.transition with
      | some t => some (StateWithParams.mk t.currentState t.toState.params none)
      | none => rs.currentState
    let cancelEvs : List Event :=
      match rs.transition with
      | some t => [Event.cancelled (some t.toState) t.fromState,
                   Event.ended (some t.toState) t.fromState]
      | none => []
    let first2 : Bool :=
      match rs.transition with
      | some _ => false
      | none => rs.firstTransition
    let hist2 :=
      if rs.poppedState then replaceEntry rs.history (fromS.bind StateWithParams.pathQuery)
      else rs.history
    let t2 : Transition := ⟨fromS, toS, paramDiff (fromS.map StateWithParams.params) params, reload⟩
    ({ rs with currentState := some toS, transition := some t2,
               firstTransition := first2, history := hist2 },
     cancelEvs ++ [Event.started (some toS) fromS])

/-- The success settlement callback of the in-flight transition
(src/Router.js lines 82-94 and transitionCompleted, lines 121-129): clears
the transition, pushes a new history entry for a non-popped, non-first,
non-reload transition, re-applies a popped address, clears the
firstTransition flag and dispatches completed; the bus listeners then
synchronously dispatch initialized (once, via addOnce) and ended.
Settlement timing is modelled from the spec (Transition.js is not under
src): a pending transition settles at most once and a cancelled one never
settles. -/
def settleSuccess (rs : RouterState) : RouterState × List Event :=
  match rs.transition with
  | none => (rs, [])
  | some t =>
    let doPush := !rs.poppedState && !rs.firstTransition && !t.reload
    let hist1 := if doPush then rs.history ++ [rs.currentPathQuery] else rs.history
    let push1 := if doPush then rs.pushes + 1 else rs.pushes
    let hist2 :=
      if rs.poppedState then replaceEntry hist1 (rs.currentState.bind StateWithParams.pathQuery)
      else hist1
    let initEvs := if rs.initializedDispatched then ([] : List Event) else [Event.initialized]
    ({ rs with transition := none, firstTransition := false, initializedDispatched := true,
               history := hist2, pushes := push1 },
     Event.completed (some t.toState) t.fromState ::
       (initEvs ++ [Event.ended (some t.toState) t.fromState]))

/-- The failure settlement callback of the in-flight transition
(src/Router.js lines 95-100 and transitionFailed, lines 131-135): clears the
transition, rolls the optimistic current state back to the transition's
source, and dispatches failed, whose bus listener synchronously dispatches
ended; the error is then rethrown into transitionError, which only logs a
transition error. The history collaborator is not touched. -/
def settleFail (rs : RouterState) : RouterState × List Event :=
  match rs.transition with
  | none => (rs, [])
  | some t =>
    ({ rs with transition := none, currentState := t.fromState },
     [Event.failed (some t.toState) t.fromState, Event.ended (some t.toState) t.fromState])

/-- The router state right after construction (src/Router.js lines 20-36):
no current state, no transition, the firstTransition flag set. -/
def initialRouter : RouterState :=
  { currentState := none, transition := none, currentPathQuery := none,
    firstTransition := true, poppedState := false, initializedDispatched := false,
    history := [], pushes := 0 }

/-- C2: a navigation request whose target state and parameter mapping exactly
match (empty parameter diff) the target of the in-flight transition if one
exists, or else the current settled state, and which does not ask for a
reload, is ignored: the router state (including the transition, the history
stack and the address) is unchanged and no lifecycle event is dispatched. -/
theorem setState_sameState_noop (rs : RouterState) (s : State) (p : Params)
    (h : isSameState rs s p = true) :
    setState rs s p false = (rs, []) := by
  rw [setState, if_pos]
  rw [h]
  rfl

theorem setState_sameState_noop_witness :
    isSameState
      { currentState := some ⟨⟨"a"⟩, [("x", Value.num 1)], some "a/1"⟩,
        transition := none, currentPathQuery := some "a/1", firstTransition := false,
        poppedState := false, initializedDispatched := true,
        history := [some "a/1"], pushes := 1 }
      ⟨"a"⟩ [("x", Value.num 1)] = true
    ∧ setState
      { currentState := some ⟨⟨"a"⟩, [("x", Value.num 1)], some "a/1"⟩,
        transition := none, currentPathQuery := some "a/1", firstTransition := false,
        poppedState := false, initializedDispatched := true,
        history := [some "a/1"], pushes := 1 }
      ⟨"a"⟩ [("x", Value.num 1)] false =
      ({ currentState := some ⟨⟨"a"⟩, [("x", Value.num 1)], some "a/1"⟩,
         transition := none, currentPathQuery := some "a/1", firstTransition := false,
         poppedState := false, initializedDispatched := true,
         history := [some "a/1"], pushes := 1 }, []) :=
  ⟨by decide, setState_sameState_noop _ _ _ (by decide)⟩

/-- C1: a navigation request arriving while a transition is in flight cancels
it (dispatching cancelled with the stale transition's target and source,
then ended, then started for the new navigation) and the new transition's
source is the stale transition's target state with its target parameters,
never the last settled state. -/
theorem setState_supersede (rs : RouterState) (s : State) (p : Params) (r : Bool)
    (t : Transition) (ht : rs.transition = some t)
    (hgo : (!r && isSameState rs s p) = false) :
    (setState rs s p r).1.transition =
      some ⟨some ⟨t.toState.state, t.toState.params, none⟩, ⟨s, p, rs.currentPathQuery⟩,
            paramDiff (some t.toState.params) p, r⟩
    ∧ (setState rs s p r).2 =
      [Event.cancelled (some t.toState) t.fromState,
       Event.ended (some t.toState) t.fromState,
       Event.started (some ⟨s, p, rs.currentPathQuery⟩)
         (some ⟨t.toState.state, t.toState.params, none⟩)] := by
  rw [setState, if_neg (by simp [hgo]), ht]
  exact ⟨by simp [Transition.currentState], by simp [Transition.currentState]⟩

/-- A sample stale transition used by witnesses. -/
def sampleT : Transition :=
  ⟨some ⟨⟨"a"⟩, [], some "a"⟩, ⟨⟨"b"⟩, [("x", Value.num 2)], some "b/2"⟩, ["x"], false⟩

/-- A sample router state with the sample transition in flight. -/
def sampleRs : RouterState :=
  { currentState := some ⟨⟨"b"⟩, [("x", Value.num 2)], some "b/2"⟩,
    transition := some sampleT, currentPathQuery := some "c/3",
    firstTransition := false, poppedState := false, initializedDispatched := true,
    history := [some "a"], pushes := 0 }

theorem setState_supersede_witness :
    sampleRs.transition = some sampleT
    ∧ (!false && isSameState sampleRs ⟨"c"⟩ [("y", Value.num 3)]) = false
    ∧ (setState sampleRs ⟨"c"⟩ [("y", Value.num 3)] false).1.transition =
      some ⟨some ⟨sampleT.toState.state, sampleT.toState.params, none⟩,
            ⟨⟨"c"⟩, [("y", Value.num 3)], sampleRs.currentPathQuery⟩,
            paramDiff (some sampleT.toState.params) [("y", Value.num 3)], false⟩ :=
  ⟨rfl, by decide,
   (setState_supersede sampleRs ⟨"c"⟩ [("y", Value.num 3)] false sampleT rfl (by decide)).1⟩

/-- A failing transition that superseded an in-flight one does not restore
the exact pre-transition StateWithParams: the source built at Router.js:57
from the stale transition carries no cached literal location, so after the
rollback the current state differs from its pre-transition value in the
location component, even though its state and parameter mapping agree. -/
theorem settleFail_exact_restore_cex :
    (settleFail (setState sampleRs ⟨"c"⟩ [] false).1).1.currentState
      ≠ sampleRs.currentState
    ∧ ((settleFail (setState sampleRs ⟨"c"⟩ [] false).1).1.currentState.map
        (fun c => (c.state, c.params))
      = sampleRs.currentState.map (fun c => (c.state, c.params))) := by
  exact ⟨by decide, by decide⟩

/-- C3 (amended): every failing transition rolls the publicly visible current
state back to the transition's source. Under the optimistic-visibility
invariant of Router.js:65 (while a transition is in flight the current state
mirrors its target), the pre-transition state and parameter mapping are
always restored exactly; when the failing transition started from an idle
router, the whole pre-transition StateWithParams, its cached literal location
included, is restored identically; and the failure handling touches neither
the history stack nor the push counter, so no history entry is pushed for
the failed attempt. -/
theorem settleFail_rollback_view (rs : RouterState) (s : State) (p : Params) (r : Bool)
    (hgo : (!r && isSameState rs s p) = false)
    (hinv : ∀ t, rs.transition = some t →
      rs.currentState.map (fun c => (c.state, c.params))
        = some (t.toState.state, t.toState.params)) :
    (settleFail (setState rs s p r).1).1.currentState.map (fun c => (c.state, c.params))
        = rs.currentState.map (fun c => (c.state, c.params))
    ∧ (rs.transition = none →
        (settleFail (setState rs s p r).1).1.currentState = rs.currentState)
    ∧ (settleFail (setState rs s p r).1).1.pushes = rs.pushes
    ∧ (settleFail (setState rs s p r).1).1.history = (setState rs s p r).1.history := by
  rw [setState, if_neg (by simp [hgo])]
  rcases ht : rs.transition with _ | t
  · exact ⟨rfl, fun _ => rfl, rfl, rfl⟩
  · refine ⟨?_, ?_, rfl, rfl⟩
    · rw [hinv t ht]
      rfl
    · intro h
      exact Option.noConfusion h

theorem settleFail_rollback_view_witness :
    (!false && isSameState sampleRs ⟨"c"⟩ []) = false
    ∧ (∀ t, sampleRs.transition = some t →
        sampleRs.currentState.map (fun c => (c.state, c.params))
          = some (t.toState.state, t.toState.params))
    ∧ (settleFail (setState sampleRs ⟨"c"⟩ [] false).1).1.currentState.map
        (fun c => (c.state, c.params))
      = sampleRs.currentState.map (fun c => (c.state, c.params))
    ∧ (settleFail (setState sampleRs ⟨"c"⟩ [] false).1).1.pushes = sampleRs.pushes := by
  have hinv : ∀ t, sampleRs.transition = some t →
      sampleRs.currentState.map (fun c => (c.state, c.params))
        = some (t.toState.state, t.toState.params) := by
    intro t ht
    have h2 : sampleT = t := Option.some_inj.mp ht
    subst h2
    decide
  exact ⟨by decide, hinv,
    (settleFail_rollback_view sampleRs ⟨"c"⟩ [] false (by decide) hinv).1,
    (settleFail_rollback_view sampleRs ⟨"c"⟩ [] false (by decide) hinv).2.2.1⟩

/-- C6: a successful transition pushes a new history entry carrying the new
literal location exactly when the request is programmatic (not a pop), the
firstTransition flag is cleared and no reload was asked; a popped request,
the application's first transition and any reload never push. -/
theorem settleSuccess_pushPolicy (rs : RouterState) (t : Transition)
    (ht : rs.transition = some t) :
    ((rs.poppedState = false ∧ rs.firstTransition = false ∧ t.reload = false) →
      (settleSuccess rs).1.history = rs.history ++ [rs.currentPathQuery]
      ∧ (settleSuccess rs).1.pushes = rs.pushes + 1)
    ∧ ((rs.poppedState = true ∨ rs.firstTransition = true ∨ t.reload = true) →
      (settleSuccess rs).1.pushes = rs.pushes) := by
  rw [settleSuccess, ht]
  constructor
  · rintro ⟨hp, hf, hr⟩
    simp [hp, hf, hr]
  · rintro (h | h | h) <;> simp [h]

/-- A sample router state whose in-flight transition is the sample one and
whose flags allow a push on success. -/
def sampleMidRs : RouterState :=
  { currentState := some ⟨⟨"b"⟩, [("x", Value.num 2)], some "b/2"⟩,
    transition := some sampleT, currentPathQuery := some "b/2",
    firstTransition := false, poppedState := false, initializedDispatched := true,
    history := [some "a"], pushes := 1 }

theorem settleSuccess_pushPolicy_witness :
    sampleMidRs.transition = some sampleT
    ∧ (settleSuccess sampleMidRs).1.history = sampleMidRs.history ++ [sampleMidRs.currentPathQuery]
    ∧ (settleSuccess sampleMidRs).1.pushes = sampleMidRs.pushes + 1 :=
  ⟨rfl,
   ((settleSuccess_pushPolicy sampleMidRs sampleT rfl).1 ⟨rfl, rfl, rfl⟩).1,
   ((settleSuccess_pushPolicy sampleMidRs sampleT rfl).1 ⟨rfl, rfl, rfl⟩).2⟩

/-- C9: superseding the very first transition clears the one-shot
firstTransition flag, so when the superseding (programmatic, non-pop,
non-reload) transition later succeeds, a history entry is pushed even though
no transition ever completed before it. -/
theorem cancel_clears_firstTransition (rs : RouterState) (s : State) (p : Params)
    (t : Transition) (ht : rs.transition = some t)
    (_hfirst : rs.firstTransition = true) (hpop : rs.poppedState = false)
    (hgo : isSameState rs s p = false) :
    (setState rs s p false).1.firstTransition = false
    ∧ (settleSuccess (setState rs s p false).1).1.pushes = (setState rs s p false).1.pushes + 1
    ∧ (settleSuccess (setState rs s p false).1).1.history
      = (setState rs s p false).1.history ++ [rs.currentPathQuery] := by
  rw [setState, if_neg (by simp [hgo]), ht]
  simp [settleSuccess, hpop, Transition.currentState]

/-- A sample router state whose first-ever transition is still in flight. -/
def sampleFirstRs : RouterState :=
  { currentState := some ⟨⟨"b"⟩, [("x", Value.num 2)], some "b/2"⟩,
    transition := some sampleT, currentPathQuery := some "b/2",
    firstTransition := true, poppedState := false, initializedDispatched := false,
    history := [some "a"], pushes := 0 }

theorem cancel_clears_firstTransition_witness :
    sampleFirstRs.transition = some sampleT
    ∧ sampleFirstRs.firstTransition = true
    ∧ (setState sampleFirstRs ⟨"c"⟩ [] false).1.firstTransition = false
    ∧ (settleSuccess (setState sampleFirstRs ⟨"c"⟩ [] false).1).1.pushes
        = (setState sampleFirstRs ⟨"c"⟩ [] false).1.pushes + 1 :=
  ⟨rfl, rfl,
   (cancel_clears_firstTransition sampleFirstRs ⟨"c"⟩ [] sampleT rfl rfl rfl (by decide)).1,
   (cancel_clears_firstTransition sampleFirstRs ⟨"c"⟩ [] sampleT rfl rfl rfl (by decide)).2.1⟩

/-- A command to the running router: a navigation request (router.state or
the onpopstate handler, which set the poppedState flag and the current
location before calling setState, or router.reload, which calls setState with
the reload flag), or the settlement of the in-flight transition. -/
inductive Cmd where
  | request (popped : Bool) (pq : Option String) (s : State) (p : Params) (reload : Bool)
  | succeed
  | fail
deriving DecidableEq, Repr

/-- One command applied to the router, yielding the events it dispatches. -/
def step (rs : RouterState) : Cmd → RouterState × List Event
  | .request popped pq s p r =>
    setState { rs with poppedState := popped, currentPathQuery := pq } s p r
  | .succeed => settleSuccess rs
  | .fail => settleFail rs

/-- Runs a command list from a router state, concatenating the dispatched
events in dispatch order. -/
def runFrom (rs : RouterState) : List Cmd → RouterState × List Event
  | [] => (rs, [])
  | c :: cs =>
    let r1 := step rs c
    let r2 := runFrom r1.1 cs
    (r2.1, r1.2 ++ r2.2)

/-- The payload of a lifecycle event: the to and from values. -/
abbrev EventPayload := Option StateWithParams × Option StateWithParams

/-- State of the event-order checker: the payload of a dispatched started
whose navigation has not settled yet; the payload of a settling event whose
ended has not been dispatched yet; whether an initialized dispatch is due
right now (set by the first completed, cleared by initialized, required
clear before the corresponding ended); and whether initialized has been
dispatched. -/
structure ScanSt where
  openNav : Option EventPayload
  pendingEnded : Option EventPayload
  mustInit : Bool
  doneInit : Bool
deriving DecidableEq, Repr

/-- Checks one event against the order required by the spec: started opens a
navigation; exactly one of completed, failed or cancelled settles the open
navigation with the same payload; ended follows with that payload before
anything else; initialized is dispatched exactly once, immediately after the
first completed (before its ended). -/
def scanStep (st : ScanSt) : Event → Option ScanSt
  | .started tgt src =>
    if st.openNav = none ∧ st.pendingEnded = none then
      some { st with openNav := some (tgt, src) }
    else none
  | .completed tgt src =>
    if st.openNav = some (tgt, src) ∧ st.pendingEnded = none then
      some { st with openNav := none, pendingEnded := some (tgt, src), mustInit := !st.doneInit }
    else none
  | .failed tgt src =>
    if st.openNav = some (tgt, src) ∧ st.pendingEnded = none then
      some { st with openNav := none, pendingEnded := some (tgt, src) }
    else none
  | .cancelled tgt src =>
    if st.openNav = some (tgt, src) ∧ st.pendingEnded = none then
      some { st with openNav := none, pendingEnded := some (tgt, src) }
    else none
  | .ended tgt src =>
    if st.pendingEnded = some (tgt, src) ∧ st.mustInit = false then
      some { st with pendingEnded := none }
    else none
  | .initialized =>
    if st.mustInit = true then some { st with mustInit := false, doneInit := true }
    else none

/-- Checker state before any event. -/
def scanInit : ScanSt := ⟨none, none, false, false⟩

/-- Runs the checker over an event list; none marks an order violation. -/
def scanList (st : ScanSt) : List Event → Option ScanSt
  | [] => some st
  | e :: es =>
    match scanStep st e with
    | some st2 => scanList st2 es
    | none => none

/-- A trace is well ordered when the checker accepts every event and, at the
end, no settling event is missing its ended and no initialized dispatch is
still due. -/
def traceOk (t : List Event) : Bool :=
  match scanList scanInit t with
  | some st => st.pendingEnded.isNone && !st.mustInit
  | none => false

theorem scanList_append (st : ScanSt) (a b : List Event) :
    scanList st (a ++ b) =
      match scanList st a with
      | some st2 => scanList st2 b
      | none => none := by
  induction a generalizing st with
  | nil => simp [scanList]
  | cons e es ih =>
    rw [List.cons_append, scanList, scanList]
    cases scanStep st e with
    | none => rfl
    | some st2 => exact ih st2

/-- The checker state that corresponds to a reachable router state: the open
navigation is exactly the in-flight transition's payload, nothing awaits an
ended, no initialized dispatch is due, and the one-shot initialized latch
mirrors the router's. -/
def ScanMatches (rs : RouterState) (st : ScanSt) : Prop :=
  st.openNav = rs.transition.map (fun t => (some t.toState, t.fromState))
  ∧ st.pendingEnded = none ∧ st.mustInit = false ∧ st.doneInit = rs.initializedDispatched

theorem scan_step (rs : RouterState) (st : ScanSt) (c : Cmd) (h : ScanMatches rs st) :
    ∃ st2, scanList st (step rs c).2 = some st2 ∧ ScanMatches (step rs c).1 st2 := by
  obtain ⟨h1, h2, h3, h4⟩ := h
  cases c with
  | request popped pq s p r =>
    show ∃ st2,
      scanList st (setState { rs with poppedState := popped, currentPathQuery := pq } s p r).2 = some st2 ∧
      ScanMatches (setState { rs with poppedState := popped, currentPathQuery := pq } s p r).1 st2
    rw [setState]
    by_cases hnoop : (!r && isSameState { rs with poppedState := popped, currentPathQuery := pq } s p) = true
    · rw [if_pos hnoop]
      exact ⟨st, rfl, h1, h2, h3, h4⟩
    · rw [if_neg hnoop]
      rcases ht : rs.transition with _ | t
      · rw [ht] at h1
        simp only [Option.map_none'] at h1
        refine ⟨{ st with openNav := some (some ⟨s, p, pq⟩, rs.currentState) }, ?_, ?_⟩
        · simp [scanList, scanStep, h1, h2]
        · exact ⟨rfl, h2, h3, h4⟩
      · rw [ht] at h1
        simp only [Option.map_some'] at h1
        refine ⟨{ st with
            openNav := some (some ⟨s, p, pq⟩, some ⟨t.currentState, t.toState.params, none⟩),
            pendingEnded := none }, ?_, ?_⟩
        · simp [scanList, scanStep, h1, h2, h3]
        · exact ⟨rfl, rfl, h3, h4⟩
  | succeed =>
    show ∃ st2, scanList st (settleSuccess rs).2 = some st2 ∧ ScanMatches (settleSuccess rs).1 st2
    rw [settleSuccess]
    rcases ht : rs.transition with _ | t
    · exact ⟨st, rfl, by rw [h1, ht], h2, h3, h4⟩
    · rw [ht] at h1
      simp only [Option.map_some'] at h1
      refine ⟨{ st with openNav := none, pendingEnded := none, mustInit := false, doneInit := true }, ?_, ?_⟩
      · rcases hd : rs.initializedDispatched
        · have hdone : st.doneInit = false := by rw [h4, hd]
          simp [scanList, scanStep, h1, h2, h3, hd, hdone]
        · have hdone : st.doneInit = true := by rw [h4, hd]
          simp [scanList, scanStep, h1, h2, h3, hd, hdone]
      · exact ⟨rfl, rfl, rfl, rfl⟩
  | fail =>
    show ∃ st2, scanList st (settleFail rs).2 = some st2 ∧ ScanMatches (settleFail rs).1 st2
    rw [settleFail]
    rcases ht : rs.transition with _ | t
    · exact ⟨st, rfl, by rw [h1, ht], h2, h3, h4⟩
    · rw [ht] at h1
      simp only [Option.map_some'] at h1
      refine ⟨{ st with openNav := none, pendingEnded := none }, ?_, ?_⟩
      · simp [scanList, scanStep, h1, h2, h3]
      · exact ⟨rfl, rfl, h3, h4⟩

theorem runFrom_scan (cmds : List Cmd) : ∀ rs st, ScanMatches rs st →
    ∃ st2, scanList st (runFrom rs cmds).2 = some st2 ∧ ScanMatches (runFrom rs cmds).1 st2 := by
  induction cmds with
  | nil =>
    intro rs st h
    exact ⟨st, rfl, h⟩
  | cons c cs ih =>
    intro rs st h
    obtain ⟨stm, hscan, hm⟩ := scan_step rs st c h
    obtain ⟨stf, hscan2, hm2⟩ := ih (step rs c).1 stm hm
    refine ⟨stf, ?_, hm2⟩
    rw [runFrom]
    show scanList st ((step rs c).2 ++ (runFrom (step rs c).1 cs).2) = some stf
    rw [scanList_append, hscan]
    exact hscan2

/-- C5: along any run of the router from its initial state, lifecycle events
are dispatched synchronously in the claimed order: each navigation dispatches
started, later exactly one of completed, failed or cancelled with the same
payload, immediately followed (the one initialized dispatch aside) by ended
with that payload; and initialized is dispatched exactly once, right after
the first completed. -/
theorem lifecycle_event_order (cmds : List Cmd) :
    traceOk (runFrom initialRouter cmds).2 = true := by
  obtain ⟨st2, hscan, hm⟩ := runFrom_scan cmds initialRouter scanInit ⟨rfl, rfl, rfl, rfl⟩
  obtain ⟨h1, h2, h3, h4⟩ := hm
  rw [traceOk, hscan]
  show (st2.pendingEnded.isNone && !st2.mustInit) = true
  rw [h2, h3]
  rfl

/-- A registered state definition as the registration layer sees it: only its
cached lastParams (the parameter mapping of its most recent successful entry,
set by transitionCompleted) matters to the claims below; absent when the state
was never entered. The State module itself is not under src. -/
structure StateDef where
  lastParams : Option Params := none
deriving DecidableEq, Repr

/-- The registration-time state of the router: the root states mapping and
the one-way initialized latch (src/Router.js lines 22 and 36, set at line
255). -/
structure RouterReg where
  states : List (String × StateDef)
  initialized : Bool
deriving DecidableEq, Repr

/-- Translation of addState (src/Router.js lines 365-377), with a thrown
Error modelled as the second component: the initialized check runs first,
then the duplicate-name check (a registered state object is truthy), and only
then is the states mapping extended. -/
def addState (reg : RouterReg) (name : String) (st : StateDef) :
    RouterReg × Option String :=
  if reg.initialized then
    (reg, some "States can only be added before the Router is initialized")
  else if (List.lookup name reg.states).isSome then
    (reg, some ("A state already exist in the router with the name " ++ name))
  else
    ({ reg with states := reg.states ++ [(name, st)] }, none)

/-- C8: addState fails with a configuration error (a thrown Error propagated
to the caller) whenever the router is already initialized, and likewise
whenever the name is already registered; in either failure case the
registered-states mapping (indeed the whole registration state) is
unchanged. -/
theorem addState_guard (reg : RouterReg) (name : String) (st : StateDef)
    (h : reg.initialized = true ∨ (List.lookup name reg.states).isSome = true) :
    (addState reg name st).1 = reg ∧ (addState reg name st).2.isSome = true := by
  rw [addState]
  rcases h with h | h
  · rw [if_pos h]
    exact ⟨rfl, rfl⟩
  · by_cases hinit : reg.initialized = true
    · rw [if_pos hinit]
      exact ⟨rfl, rfl⟩
    · rw [if_neg hinit, if_pos h]
      exact ⟨rfl, rfl⟩

theorem addState_guard_witness :
    ((RouterReg.mk [("home", ⟨none⟩)] true).initialized = true
      ∨ (List.lookup "home" (RouterReg.mk [("home", ⟨none⟩)] true).states).isSome = true)
    ∧ (addState (RouterReg.mk [("home", ⟨none⟩)] true) "news" ⟨none⟩).1
        = RouterReg.mk [("home", ⟨none⟩)] true
    ∧ (addState (RouterReg.mk [("home", ⟨none⟩)] true) "news" ⟨none⟩).2.isSome = true :=
  ⟨Or.inl rfl,
   (addState_guard (RouterReg.mk [("home", ⟨none⟩)] true) "news" ⟨none⟩ (Or.inl rfl)).1,
   (addState_guard (RouterReg.mk [("home", ⟨none⟩)] true) "news" ⟨none⟩ (Or.inl rfl)).2⟩

/-- The navigation-resolution state of an initialized router: the index of
leaf states by full name (built by initStates, src/Router.js lines 267-278),
the routing table as a mapping from canonical literal locations to the
matched leaf state and extracted parameters (the crossroads collaborator,
modelled from the spec at its section 6 boundary), and the optional
configured notFound state. -/
structure RouterNav where
  leafStates : List (String × StateDef)
  routes : List (String × (String × Params))
  notFound : Option String
deriving DecidableEq, Repr

/-- Modelled from the spec: util.normalizePathQuery is not under src; spec
section 6 canonicalizes a literal location by stripping leading separators
and hash markers. -/
def normalizePathQuery (pq : String) : String :=
  { data := pq.data.dropWhile (fun c => c == '/' || c == '#' || c == '!') }

/-- The observable outcome of a navigation entry point: a navigation to a
named leaf with parameters, a redirect to the configured notFound state, a
thrown configuration Error (state could not be found), or a thrown TypeError
from reading a property of undefined. -/
inductive NavOutcome where
  | navigated (name : String) (p : Params)
  | notFoundFallback (name : String)
  | notFoundError (msg : String)
  | typeError
deriving DecidableEq, Repr

/-- Translation of state/setStateByName/setStateForPathQuery/notFound
(src/Router.js lines 307-315, 344-359, 200-205): an argument that is a
registered leaf-state name navigates to it with the given parameters
(setStateByName interpolates and re-parses its own route, reaching the same
leaf); any other argument is treated as a literal location and parsed
against the routing table; an unmatched location redirects to the configured
notFound state if one exists and otherwise throws a configuration error. -/
def stateOp (r : RouterNav) (arg : String) (p : Params) : NavOutcome :=
  if (List.lookup arg r.leafStates).isSome then
    NavOutcome.navigated arg p
  else
    match List.lookup (normalizePathQuery arg) r.routes with
    | some (n, q) => NavOutcome.navigated n q
    | none =>
      match r.notFound with
      | some nf => NavOutcome.notFoundFallback nf
      | none => NavOutcome.notFoundError ("State " ++ normalizePathQuery arg ++ " could not be found")

/-- Translation of backTo (src/Router.js lines 329-332): the leaf-state index
is dereferenced before any navigation step, so an unregistered name makes
leafStates[stateName].lastParams throw a TypeError (reading a property of
undefined); otherwise the cached lastParams, or the default parameters when
the state was never entered, are passed to state(). -/
def backTo (r : RouterNav) (stateName : String) (defaultParams : Params) : NavOutcome :=
  match List.lookup stateName r.leafStates with
  | none => NavOutcome.typeError
  | some st => stateOp r stateName (st.lastParams.getD defaultParams)

/-- C10: for a name that is not registered as a leaf state, backTo fails with
a TypeError before any navigation step, regardless of the routing table and
of the notFound configuration; state() with the same argument never throws a
TypeError, and when the argument also matches no route and a notFound state
is configured, state() falls back to it while backTo still throws. -/
theorem backTo_unknown_typeError (r : RouterNav) (name : String) (dp : Params)
    (h : List.lookup name r.leafStates = none) :
    backTo r name dp = NavOutcome.typeError
    ∧ (∀ p : Params, stateOp r name p ≠ NavOutcome.typeError)
    ∧ (∀ nf, r.notFound = some nf → List.lookup (normalizePathQuery name) r.routes = none →
        stateOp r name dp = NavOutcome.notFoundFallback nf) := by
  refine ⟨?_, ?_, ?_⟩
  · rw [backTo, h]
  · intro p
    rw [stateOp]
    by_cases hleaf : (List.lookup name r.leafStates).isSome = true
    · rw [if_pos hleaf]
      exact fun hx => NavOutcome.noConfusion hx
    · rw [if_neg hleaf]
      rcases List.lookup (normalizePathQuery name) r.routes with _ | ⟨n2, q2⟩
      · rcases r.notFound with _ | nf
        · exact fun hx => NavOutcome.noConfusion hx
        · exact fun hx => NavOutcome.noConfusion hx
      · exact fun hx => NavOutcome.noConfusion hx
  · intro nf hnf hroute
    rw [stateOp, if_neg (by rw [h]; exact Bool.false_ne_true), hroute, hnf]

theorem backTo_unknown_typeError_witness :
    List.lookup "gone" (RouterNav.mk [("home", ⟨none⟩)] [] (some "nf")).leafStates = none
    ∧ backTo (RouterNav.mk [("home", ⟨none⟩)] [] (some "nf")) "gone" [] = NavOutcome.typeError
    ∧ stateOp (RouterNav.mk [("home", ⟨none⟩)] [] (some "nf")) "gone" []
        = NavOutcome.notFoundFallback "nf" :=
  ⟨rfl,
   (backTo_unknown_typeError (RouterNav.mk [("home", ⟨none⟩)] [] (some "nf")) "gone" [] rfl).1,
   (backTo_unknown_typeError (RouterNav.mk [("home", ⟨none⟩)] [] (some "nf")) "gone" [] rfl).2.2
     "nf" rfl rfl⟩

/-- Characters that percent-encoding leaves unescaped: alphanumerics and the
marks minus, underscore, dot, exclamation, tilde, asterisk, apostrophe
(codepoint 39) and parentheses. -/
def isUnreservedChar (c : Char) : Bool :=
  c.isAlphanum || c == '-' || c == '_' || c == '.' || c == '!' || c == '~' ||
    c == '*' || c.toNat == 39 || c == '(' || c == ')'

/-- Upper-case hexadecimal digit character for a value below sixteen. -/
def hexDigitChar : Nat → Char
  | 0 => '0' | 1 => '1' | 2 => '2' | 3 => '3' | 4 => '4' | 5 => '5' | 6 => '6' | 7 => '7'
  | 8 => '8' | 9 => '9' | 10 => 'A' | 11 => 'B' | 12 => 'C' | 13 => 'D' | 14 => 'E' | _ => 'F'

/-- Numeric value of an upper-case hexadecimal digit character. -/
def hexVal (c : Char) : Nat := if c.isDigit then c.toNat - 48 else c.toNat - 55

/-- Whether a character is an upper-case hexadecimal digit. -/
def isHexDigitChar (c : Char) : Bool := c.isDigit || ('A' ≤ c && c ≤ 'F')

/-- Modelled from the spec: the percent-encoding a literal location applies
to interpolated values (URL decoding of the inverse direction is part of the
Param Codec, spec section 4.2). An ASCII character outside the unreserved
set is escaped as a percent sign and two hexadecimal digits; the model
passes non-ASCII characters through unescaped. -/
def encodeChar (c : Char) : List Char :=
  if isUnreservedChar c = true ∨ 128 ≤ c.toNat then [c]
  else ['%', hexDigitChar (c.toNat / 16), hexDigitChar (c.toNat % 16)]

/-- Percent-encoding over a character list. -/
def encodeList : List Char → List Char
  | [] => []
  | c :: cs => encodeChar c ++ encodeList cs

/-- Percent-encoding over a string. -/
def encodeStr (s : String) : String := { data := encodeList s.data }

/-- decodeURIComponent at the character level, fuelled for structural
recursion (decodeList always supplies enough fuel): a percent sign followed
by two hexadecimal digits decodes to the escaped character; anything else is
kept as is. -/
def decodeListAux : Nat → List Char → List Char
  | 0, l => l
  | _ + 1, [] => []
  | fuel + 1, c :: h :: l :: rest =>
    if c == '%' && isHexDigitChar h && isHexDigitChar l then
      Char.ofNat (16 * hexVal h + hexVal l) :: decodeListAux fuel rest
    else c :: decodeListAux fuel (h :: l :: rest)
  | fuel + 1, c :: cs => c :: decodeListAux fuel cs

/-- decodeURIComponent over a character list. -/
def decodeList (l : List Char) : List Char := decodeListAux l.length l

/-- decodeURIComponent over a string. -/
def decodeStr (s : String) : String := { data := decodeList s.data }

theorem hexVal_hexDigitChar {n : Nat} (h : n < 16) : hexVal (hexDigitChar n) = n := by
  interval_cases n <;> decide

theorem isHexDigitChar_hexDigitChar {n : Nat} (h : n < 16) :
    isHexDigitChar (hexDigitChar n) = true := by
  interval_cases n <;> decide

theorem decodeListAux_cons_ne (f : Nat) (c : Char) (cs : List Char)
    (hc : (c == '%') = false) :
    decodeListAux (f + 1) (c :: cs) = c :: decodeListAux f cs := by
  match cs with
  | [] => rfl
  | [x] => rfl
  | x :: y :: rest =>
    show (if (c == '%') && isHexDigitChar x && isHexDigitChar y then
        Char.ofNat (16 * hexVal x + hexVal y) :: decodeListAux f rest
      else c :: decodeListAux f (x :: y :: rest)) = c :: decodeListAux f (x :: y :: rest)
    rw [hc]
    rfl

theorem decodeListAux_encodeList :
    ∀ (l : List Char) (fuel : Nat), (encodeList l).length ≤ fuel →
      decodeListAux fuel (encodeList l) = l := by
  intro l
  induction l with
  | nil =>
    intro fuel _
    cases fuel <;> rfl
  | cons c cs ih =>
    intro fuel hfuel
    rw [encodeList] at hfuel ⊢
    rw [encodeChar] at hfuel ⊢
    by_cases hk : isUnreservedChar c = true ∨ 128 ≤ c.toNat
    · rw [if_pos hk] at hfuel ⊢
      rw [List.singleton_append] at hfuel ⊢
      have hcp : (c == '%') = false := by
        refine beq_false_of_ne (fun hcc => ?_)
        rw [hcc] at hk
        rcases hk with hk | hk <;> exact absurd hk (by decide)
      rcases fuel with _ | f
      · rw [List.length_cons] at hfuel
        omega
      · rw [decodeListAux_cons_ne f c _ hcp, ih f (by rw [List.length_cons] at hfuel; omega)]
    · rw [if_neg hk] at hfuel ⊢
      push_neg at hk
      obtain ⟨hu, hlt⟩ := hk
      have hdiv : c.toNat / 16 < 16 := by omega
      have hmod : c.toNat % 16 < 16 := by omega
      rw [List.cons_append, List.cons_append, List.cons_append, List.nil_append] at hfuel ⊢
      rcases fuel with _ | f
      · rw [List.length_cons] at hfuel
        omega
      · show (if ('%' == '%') && isHexDigitChar (hexDigitChar (c.toNat / 16))
              && isHexDigitChar (hexDigitChar (c.toNat % 16)) then
            Char.ofNat (16 * hexVal (hexDigitChar (c.toNat / 16)) + hexVal (hexDigitChar (c.toNat % 16)))
              :: decodeListAux f (encodeList cs)
          else '%' :: decodeListAux f
            (hexDigitChar (c.toNat / 16) :: hexDigitChar (c.toNat % 16) :: encodeList cs)) = c :: cs
        rw [if_pos (by rw [isHexDigitChar_hexDigitChar hdiv, isHexDigitChar_hexDigitChar hmod]; rfl)]
        rw [hexVal_hexDigitChar hdiv, hexVal_hexDigitChar hmod, Nat.div_add_mod, Char.ofNat_toNat]
        rw [ih f (by simp only [List.length_cons] at hfuel; omega)]

theorem decodeList_encodeList (l : List Char) : decodeList (encodeList l) = l :=
  decodeListAux_encodeList l (encodeList l).length (Nat.le_refl _)

theorem isUnreservedChar_of_isDigit {c : Char} (h : c.isDigit = true) :
    isUnreservedChar c = true := by
  rw [isUnreservedChar, Char.isAlphanum, h]
  simp

theorem encodeList_of_kept (l : List Char) (h : ∀ c ∈ l, isUnreservedChar c = true) :
    encodeList l = l := by
  induction l with
  | nil => rfl
  | cons c cs ih =>
    rw [encodeList, encodeChar, if_pos (Or.inl (h c (List.mem_cons_self _ _))),
      List.singleton_append, ih (fun x hx => h x (List.mem_cons_of_mem _ hx))]

theorem encodeList_eq_self_of_no_percent (l : List Char) (h : '%' ∉ encodeList l) :
    encodeList l = l := by
  induction l with
  | nil => rfl
  | cons c cs ih =>
    rw [encodeList] at h ⊢
    rw [encodeChar] at h ⊢
    by_cases hk : isUnreservedChar c = true ∨ 128 ≤ c.toNat
    · rw [if_pos hk] at h ⊢
      rw [List.singleton_append] at h ⊢
      rw [ih (fun hx => h (List.mem_cons_of_mem _ hx))]
    · rw [if_neg hk] at h
      exact absurd (List.mem_append_left _ (List.mem_cons_self _ _)) h

theorem parseIntList_chars {l : List Char} {m : Int} (h : parseIntList? l = some m) :
    ∀ c ∈ l, isUnreservedChar c = true := by
  rcases l with _ | ⟨c, rest⟩
  · intro c hc
    exact absurd hc (List.not_mem_nil c)
  · rw [parseIntList?] at h
    by_cases hc : c = '-'
    · rw [if_pos hc] at h
      rw [parseNatDigits?] at h
      split at h
      · next hcond =>
        intro x hx
        rcases List.mem_cons.mp hx with hx | hx
        · rw [hx, hc]; decide
        · exact isUnreservedChar_of_isDigit (List.all_eq_true.mp hcond.2 x hx)
      · exact absurd h (by simp)
    · rw [if_neg hc] at h
      rw [parseNatDigits?] at h
      split at h
      · next hcond =>
        intro x hx
        exact isUnreservedChar_of_isDigit (List.all_eq_true.mp hcond.2 x hx)
      · exact absurd h (by simp)

theorem percent_not_unreserved : isUnreservedChar '%' = false := by decide

theorem encodeList_parse_eq_self {l : List Char} {m : Int}
    (h : parseIntList? (encodeList l) = some m) : encodeList l = l := by
  refine encodeList_eq_self_of_no_percent l (fun hmem => ?_)
  have := parseIntList_chars h '%' hmem
  rw [percent_not_unreserved] at this
  exact Bool.false_ne_true this

/-- A state as the Param Codec sees it: the placeholder names of its full
path template in order, and the chain of declared query-parameter name sets
of the state itself followed by its ancestors, as walked by
toCrossroadsParams ([state].concat(state.parents); the State module itself is
not under src). -/
structure CodecState where
  placeholders : List String
  queryChain : List (List String)
deriving DecidableEq, Repr

/-- The union of declared query-parameter names of the state and all its
ancestors, accumulated with util.mergeObjects (src/Router.js lines
419-423). -/
def allQueryParams (s : CodecState) : List String := s.queryChain.flatten

/-- The split representation handed to the routing table: named positional
(path) parameters plus the nested query object. -/
structure CrossroadsParams where
  pathParams : Params
  query : Params
deriving DecidableEq, Repr

/-- Translation of toCrossroadsParams (src/Router.js lines 417-436): each
entry of the flat mapping whose name is a declared query parameter of the
state or an ancestor goes into the nested query object, every other entry is
a named path parameter. -/
def toCrossroadsParams (s : CodecState) (abyssaParams : Params) : CrossroadsParams :=
  { pathParams := abyssaParams.filter (fun kv => !memb kv.1 (allQueryParams s)),
    query := abyssaParams.filter (fun kv => memb kv.1 (allQueryParams s)) }

/-- JavaScript string conversion of a parameter value. -/
def valueToString : Value → String
  | .str s => s
  | .num n => intToString n

/-- The routing table's type coercion of a raw matched string
(roads.shouldTypecast, src/Router.js line 40): a numeric string becomes a
number, anything else stays a string. -/
def typecastValue (s : String) : Value :=
  match parseInt? s with
  | some n => Value.num n
  | none => Value.str s

/-- Modelled from the spec: the routing-table collaborator (spec section 6)
interpolates a literal location from a state and a split parameter mapping,
and matching a literal location returns the raw positional values in the
path template's placeholder order plus the query mapping, with declared type
coercion applied. The net effect of interpolation followed by matching on
each value is printing, percent-encoding into the location, and typecasting
of the raw matched text. -/
def interpolateAndMatch (s : CodecState) (cp : CrossroadsParams) :
    List Value × Params :=
  (s.placeholders.map (fun ph =>
     typecastValue (encodeStr (valueToString ((List.lookup ph cp.pathParams).getD (Value.str ""))))),
   cp.query.map (fun kv => (kv.1, typecastValue (encodeStr (valueToString kv.2)))))

/-- decodeURIComponent applied to string values only (the util.isString guard
of fromCrossroadsParams). -/
def decodeValue : Value → Value
  | .str s => Value.str (decodeStr s)
  | .num n => Value.num n

/-- JavaScript object assignment: update the entry with the key if present,
else append it. -/
def setKey (ps : Params) (k : String) (v : Value) : Params :=
  if ps.any (fun kv => kv.1 == k) then
    ps.map (fun kv => if kv.1 == k then (k, v) else kv)
  else ps ++ [(k, v)]

/-- util.mergeObjects: assign every entry of the second mapping into the
first. -/
def mergeParams (a b : Params) : Params :=
  b.foldl (fun acc kv => setKey acc kv.1 kv.2) a

/-- Translation of fromCrossroadsParams (src/Router.js lines 392-412): walk
the placeholder tokens of the full path in order, assigning the raw
positional arguments one by one; merge in the query object; URL-decode every
string value. -/
def fromCrossroadsParams (s : CodecState) (args : List Value) (query : Params) : Params :=
  (mergeParams (s.placeholders.zip args) query).map (fun kv => (kv.1, decodeValue kv.2))

/-- The split-then-merge round trip of spec section 4.2: split by
toCrossroadsParams, through the routing table (interpolate, then match the
produced literal location), and merged back by fromCrossroadsParams. -/
def codecRoundtrip (s : CodecState) (P : Params) : Params :=
  let cp := toCrossroadsParams s P
  let im := interpolateAndMatch s cp
  fromCrossroadsParams s im.1 im.2

/-- The type coercion the round trip applies to every value: numeric strings
become numbers, everything else is unchanged. -/
def coerceValue : Value → Value
  | .str s => typecastValue s
  | .num n => Value.num n

theorem intToString_data_unreserved (i : Int) :
    ∀ c ∈ (intToString i).data, isUnreservedChar c = true := by
  cases i with
  | ofNat n =>
    intro c hc
    exact isUnreservedChar_of_isDigit (natDigits_all_digits n c hc)
  | negSucc n =>
    intro c hc
    rcases List.mem_cons.mp hc with hc | hc
    · rw [hc]; decide
    · exact isUnreservedChar_of_isDigit (natDigits_all_digits (n + 1) c hc)

theorem encodeStr_eq_self {s : String} (h : ∀ c ∈ s.data, isUnreservedChar c = true) :
    encodeStr s = s := by
  show ({ data := encodeList s.data } : String) = s
  rw [encodeList_of_kept s.data h]

theorem decodeStr_encodeStr (s : String) : decodeStr (encodeStr s) = s := by
  show ({ data := decodeList (encodeList s.data) } : String) = s
  rw [decodeList_encodeList]

theorem routeValue_coerce (v : Value) :
    decodeValue (typecastValue (encodeStr (valueToString v))) = coerceValue v := by
  cases v with
  | num n =>
    rw [valueToString, encodeStr_eq_self (intToString_data_unreserved n), typecastValue,
      parseInt_intToString]
    rfl
  | str s =>
    rw [valueToString]
    rcases hpe : parseInt? (encodeStr s) with _ | m
    · rw [typecastValue, hpe, decodeValue, decodeStr_encodeStr, coerceValue, typecastValue]
      rcases hps : parseInt? s with _ | m2
      · rfl
      · have hself : encodeList s.data = s.data :=
          encodeList_of_kept s.data (parseIntList_chars hps)
        have : parseInt? (encodeStr s) = some m2 := by
          show parseIntList? (encodeList s.data) = some m2
          rw [hself]
          exact hps
        rw [hpe] at this
        exact absurd this (by simp)
    · have hself : encodeStr s = s := by
        show ({ data := encodeList s.data } : String) = s
        rw [encodeList_parse_eq_self (show parseIntList? (encodeList s.data) = some m from hpe)]
      rw [typecastValue, hpe, decodeValue, coerceValue, typecastValue]
      rw [hself] at hpe
      rw [hpe]

theorem lookup_mapValues (f : Value → Value) (l : Params) (k : String) :
    List.lookup k (l.map (fun kv => (kv.1, f kv.2))) = (List.lookup k l).map f := by
  induction l with
  | nil => rfl
  | cons kv t ih =>
    rw [List.map_cons]
    show List.lookup k ((kv.1, f kv.2) :: t.map (fun kv => (kv.1, f kv.2)))
      = Option.map f (List.lookup k (kv :: t))
    rw [List.lookup_cons, show (kv :: t) = ((kv.1, kv.2) :: t) from rfl, List.lookup_cons]
    cases h : k == kv.1
    · exact ih
    · rfl

theorem lookup_filter_pos (p : String → Bool) (l : Params) (k : String) (hk : p k = true) :
    List.lookup k (l.filter (fun kv => p kv.1)) = List.lookup k l := by
  induction l with
  | nil => rfl
  | cons kv t ih =>
    obtain ⟨a, b⟩ := kv
    rw [List.filter_cons]
    by_cases hkeq : k = a
    · subst hkeq
      rw [if_pos (by simpa using hk), List.lookup_cons, List.lookup_cons, beq_self_eq_true]
    · have hb : (k == a) = false := beq_false_of_ne hkeq
      by_cases hp : p a = true
      · rw [if_pos (by simpa using hp), List.lookup_cons, List.lookup_cons, hb]
        exact ih
      · rw [if_neg (by simpa using hp), List.lookup_cons, hb]
        exact ih

theorem lookup_filter_neg (p : String → Bool) (l : Params) (k : String) (hk : p k = false) :
    List.lookup k (l.filter (fun kv => p kv.1)) = none := by
  induction l with
  | nil => rfl
  | cons kv t ih =>
    obtain ⟨a, b⟩ := kv
    rw [List.filter_cons]
    by_cases hkeq : k = a
    · subst hkeq
      rw [if_neg (by simp [hk])]
      exact ih
    · have hb : (k == a) = false := beq_false_of_ne hkeq
      by_cases hp : p a = true
      · rw [if_pos (by simpa using hp), List.lookup_cons, hb]
        exact ih
      · rw [if_neg (by simpa using hp)]
        exact ih

theorem lookup_map_pair (g : String → Value) (l : List String) (k : String) :
    List.lookup k (l.map (fun x => (x, g x))) = if k ∈ l then some (g k) else none := by
  induction l with
  | nil => rfl
  | cons x t ih =>
    rw [List.map_cons, List.lookup_cons]
    by_cases hkk : (k == x) = true
    · have hkeq : k = x := eq_of_beq hkk
      rw [hkk, if_pos (by rw [hkeq]; exact List.mem_cons_self _ _), hkeq]
    · have hb : (k == x) = false := by
        cases h2 : k == x
        · rfl
        · exact absurd h2 hkk
      have hne : ¬(k = x) := fun hcc => hkk (by rw [hcc]; exact beq_self_eq_true x)
      rw [hb, ih]
      by_cases hmem : k ∈ t
      · rw [if_pos hmem, if_pos (List.mem_cons_of_mem _ hmem)]
      · rw [if_neg hmem, if_neg (by rw [List.mem_cons]; rintro (hc | hc) <;> [exact hne hc; exact hmem hc])]

theorem zip_map_self (g : String → Value) (l : List String) :
    l.zip (l.map g) = l.map (fun x => (x, g x)) := by
  induction l with
  | nil => rfl
  | cons x t ih =>
    rw [List.map_cons, List.zip_cons_cons, ih, List.map_cons]

theorem pkeys_mapValues (f : Value → Value) (l : Params) :
    pkeys (l.map (fun kv => (kv.1, f kv.2))) = pkeys l := by
  rw [pkeys, pkeys, List.map_map]
  rfl

theorem pkeys_map_pair (g : String → Value) (l : List String) :
    pkeys (l.map (fun x => (x, g x))) = l := by
  rw [pkeys, List.map_map]
  exact List.map_id l

theorem setKey_not_mem (a : Params) (k : String) (v : Value) (h : k ∉ pkeys a) :
    setKey a k v = a ++ [(k, v)] := by
  rw [setKey, if_neg]
  intro hany
  rw [List.any_eq_true] at hany
  obtain ⟨kv, hkv, hbeq⟩ := hany
  exact h (eq_of_beq hbeq ▸ List.mem_map_of_mem Prod.fst hkv)

theorem mergeParams_append (b : Params) :
    ∀ a : Params, (∀ kv ∈ b, kv.1 ∉ pkeys a) → (pkeys b).Nodup →
      mergeParams a b = a ++ b := by
  induction b with
  | nil =>
    intro a _ _
    rw [mergeParams, List.foldl_nil, List.append_nil]
  | cons kv bs ih =>
    intro a hd hnd
    rw [mergeParams, List.foldl_cons]
    rw [show setKey a kv.1 kv.2 = a ++ [(kv.1, kv.2)] from
      setKey_not_mem a kv.1 kv.2 (hd kv (List.mem_cons_self _ _))]
    rw [pkeys, List.map_cons, List.nodup_cons] at hnd
    have hstep : List.foldl (fun acc kv => setKey acc kv.1 kv.2) (a ++ [(kv.1, kv.2)]) bs
        = (a ++ [(kv.1, kv.2)]) ++ bs := by
      refine ih (a ++ [(kv.1, kv.2)]) ?_ hnd.2
      intro e he
      rw [pkeys, List.map_append, List.mem_append]
      rintro (hc | hc)
      · exact hd e (List.mem_cons_of_mem _ he) hc
      · rw [List.map_singleton, List.mem_singleton] at hc
        exact hnd.1 (hc ▸ List.mem_map_of_mem Prod.fst he)
    rw [hstep, List.append_assoc, List.singleton_append]

theorem lookup_append_of_none {k : String} : ∀ (a b : Params),
    List.lookup k a = none → List.lookup k (a ++ b) = List.lookup k b := by
  intro a
  induction a with
  | nil => intro b _; rfl
  | cons kv t ih =>
    intro b h
    obtain ⟨a2, b2⟩ := kv
    rw [List.lookup_cons] at h
    rw [List.cons_append, List.lookup_cons]
    cases hb : k == a2
    · rw [hb] at h
      exact ih b h
    · rw [hb] at h
      exact Option.noConfusion h

theorem lookup_append_of_some {k : String} {v : Value} : ∀ (a b : Params),
    List.lookup k a = some v → List.lookup k (a ++ b) = some v := by
  intro a
  induction a with
  | nil => intro b h; exact Option.noConfusion h
  | cons kv t ih =>
    intro b h
    obtain ⟨a2, b2⟩ := kv
    rw [List.lookup_cons] at h
    rw [List.cons_append, List.lookup_cons]
    cases hb : k == a2
    · rw [hb] at h
      exact ih b h
    · rw [hb] at h
      exact h

theorem lookup_mem {k : String} {v : Value} : ∀ {l : Params},
    List.lookup k l = some v → (k, v) ∈ l := by
  intro l
  induction l with
  | nil => intro h; exact Option.noConfusion h
  | cons kv t ih =>
    intro h
    obtain ⟨a2, b2⟩ := kv
    rw [List.lookup_cons] at h
    cases hb : k == a2
    · rw [hb] at h
      exact List.mem_cons_of_mem _ (ih h)
    · rw [hb] at h
      have hv : b2 = v := Option.some_inj.mp h
      rw [← eq_of_beq hb, hv]
      exact List.mem_cons_self _ _

theorem codec_lookup_general (phs qn : List String) (P : Params)
    (hdecl : ∀ kv ∈ P, kv.1 ∈ phs ∨ kv.1 ∈ qn)
    (hcover : ∀ ph ∈ phs, ph ∈ pkeys P)
    (hnodup : (pkeys P).Nodup)
    (hdisj : ∀ x ∈ phs, x ∉ qn)
    (k : String) :
    List.lookup k ((mergeParams
        (phs.zip (phs.map (fun ph => typecastValue (encodeStr (valueToString
          ((List.lookup ph (P.filter (fun kv => !memb kv.1 qn))).getD (Value.str "")))))))
        ((P.filter (fun kv => memb kv.1 qn)).map
          (fun kv => (kv.1, typecastValue (encodeStr (valueToString kv.2)))))).map
        (fun kv => (kv.1, decodeValue kv.2)))
      = List.lookup k (P.map (fun kv => (kv.1, coerceValue kv.2))) := by
  set g := fun ph => typecastValue (encodeStr (valueToString
    ((List.lookup ph (P.filter (fun kv => !memb kv.1 qn))).getD (Value.str "")))) with hgdef
  rw [zip_map_self]
  have hqnodup : (pkeys ((P.filter (fun kv => memb kv.1 qn)).map
      (fun kv => (kv.1, typecastValue (encodeStr (valueToString kv.2)))))).Nodup := by
    rw [pkeys_mapValues (fun v => typecastValue (encodeStr (valueToString v)))]
    exact List.Nodup.sublist (List.Sublist.map Prod.fst (List.filter_sublist P)) hnodup
  have hdisjk : ∀ kv ∈ (P.filter (fun kv => memb kv.1 qn)).map
      (fun kv => (kv.1, typecastValue (encodeStr (valueToString kv.2)))),
      kv.1 ∉ pkeys (phs.map (fun x => (x, g x))) := by
    intro kv hkv
    rw [pkeys_map_pair]
    obtain ⟨kv0, hkv0, hkveq⟩ := List.mem_map.mp hkv
    have h1 : kv.1 = kv0.1 := by rw [← hkveq]
    have h3 : kv0.1 ∈ qn := memb_iff.mp (List.mem_filter.mp hkv0).2
    intro hmem
    exact hdisj kv.1 hmem (h1 ▸ h3)
  rw [mergeParams_append _ _ hdisjk hqnodup, List.map_append]
  by_cases hph : k ∈ phs
  · have hkqn : memb k qn = false := by
      cases hm : memb k qn
      · rfl
      · exact absurd (memb_iff.mp hm) (hdisj k hph)
    obtain ⟨v, hv⟩ := Option.isSome_iff_exists.mp (lookup_isSome_iff.mpr (hcover k hph))
    have hpath : List.lookup k (P.filter (fun kv => !memb kv.1 qn)) = some v := by
      rw [lookup_filter_pos (fun x => !memb x qn) P k (by show (!memb k qn) = true; rw [hkqn]; rfl)]
      exact hv
    have hleft : List.lookup k ((phs.map (fun x => (x, g x))).map
        (fun kv => (kv.1, decodeValue kv.2))) = some (decodeValue (g k)) := by
      rw [lookup_mapValues, lookup_map_pair, if_pos hph]
      rfl
    rw [lookup_append_of_some _ _ hleft]
    have hgk : decodeValue (g k) = coerceValue v := by
      rw [hgdef]
      show decodeValue (typecastValue (encodeStr (valueToString
        ((List.lookup k (P.filter (fun kv => !memb kv.1 qn))).getD (Value.str ""))))) = _
      rw [hpath]
      exact routeValue_coerce v
    rw [hgk, lookup_mapValues coerceValue P k, hv]
    rfl
  · have hleftnone : List.lookup k ((phs.map (fun x => (x, g x))).map
        (fun kv => (kv.1, decodeValue kv.2))) = none := by
      rw [lookup_mapValues, lookup_map_pair, if_neg hph]
      rfl
    rw [lookup_append_of_none _ _ hleftnone, lookup_mapValues decodeValue,
      lookup_mapValues (fun v => typecastValue (encodeStr (valueToString v))),
      lookup_mapValues coerceValue P k]
    by_cases hqk : memb k qn = true
    · rw [lookup_filter_pos (fun x => memb x qn) P k hqk]
      rcases List.lookup k P with _ | v
      · rfl
      · show some (decodeValue (typecastValue (encodeStr (valueToString v))))
          = some (coerceValue v)
        rw [routeValue_coerce]
    · have hqf : memb k qn = false := by
        cases hm : memb k qn
        · rfl
        · exact absurd hm hqk
      rw [lookup_filter_neg (fun x => memb x qn) P k hqf]
      have hnp : List.lookup k P = none := by
        rcases hl : List.lookup k P with _ | v
        · rfl
        · rcases hdecl (k, v) (lookup_mem hl) with hc | hc
          · exact absurd hc hph
          · exact absurd (memb_iff.mpr hc) (by rw [hqf]; exact Bool.false_ne_true)
      rw [hnp]
      rfl

/-- C7: for every state and every flat parameter mapping P whose names are
all declared on that state or one of its ancestors (each name is a path
placeholder or a declared query-parameter name), with every placeholder
covered by P, no duplicate names, and placeholders disjoint from the
query-parameter declarations, merging back the split of P (positional and
query partition, through the routing table, then recombination with URL
decoding and type coercion) reproduces P up to the round trip's type
coercion; when P's values are already coerced, it reproduces P exactly, the
coercion (numeric strings become numbers) being applied consistently in both
directions. -/
theorem codec_roundtrip_spec (s : CodecState) (P : Params)
    (hdecl : ∀ kv ∈ P, kv.1 ∈ s.placeholders ∨ kv.1 ∈ allQueryParams s)
    (hcover : ∀ ph ∈ s.placeholders, ph ∈ pkeys P)
    (hnodup : (pkeys P).Nodup)
    (hdisj : ∀ x ∈ s.placeholders, x ∉ allQueryParams s) :
    (∀ k, List.lookup k (codecRoundtrip s P)
        = List.lookup k (P.map (fun kv => (kv.1, coerceValue kv.2))))
    ∧ ((∀ kv ∈ P, coerceValue kv.2 = kv.2) →
        ∀ k, List.lookup k (codecRoundtrip s P) = List.lookup k P) := by
  have hmain : ∀ k, List.lookup k (codecRoundtrip s P)
      = List.lookup k (P.map (fun kv => (kv.1, coerceValue kv.2))) :=
    fun k => codec_lookup_general s.placeholders (allQueryParams s) P hdecl hcover hnodup hdisj k
  refine ⟨hmain, fun hfix k => ?_⟩
  rw [hmain k]
  have hfixmap : P.map (fun kv => (kv.1, coerceValue kv.2)) = P := by
    have h1 : P.map (fun kv => (kv.1, coerceValue kv.2)) = P.map (fun kv => kv) :=
      List.map_congr_left (fun kv hkv => by rw [hfix kv hkv])
    rw [h1]
    exact List.map_id' P
  rw [hfixmap]

/-- The item-detail state of the spec's round-trip example: one path
placeholder id, one declared query parameter filter. -/
def sampleCodecState : CodecState := ⟨["id"], [["filter"]]⟩

theorem codec_roundtrip_spec_witness :
    ((∀ kv ∈ ([("id", Value.num 33), ("filter", Value.str "desc")] : Params),
        kv.1 ∈ sampleCodecState.placeholders ∨ kv.1 ∈ allQueryParams sampleCodecState)
      ∧ (∀ ph ∈ sampleCodecState.placeholders,
          ph ∈ pkeys [("id", Value.num 33), ("filter", Value.str "desc")])
      ∧ (pkeys [("id", Value.num 33), ("filter", Value.str "desc")]).Nodup
      ∧ (∀ x ∈ sampleCodecState.placeholders, x ∉ allQueryParams sampleCodecState))
    ∧ List.lookup "id" (codecRoundtrip sampleCodecState
        [("id", Value.num 33), ("filter", Value.str "desc")]) = some (Value.num 33)
    ∧ List.lookup "filter" (codecRoundtrip sampleCodecState
        [("id", Value.num 33), ("filter", Value.str "desc")]) = some (Value.str "desc") := by
  refine ⟨⟨by decide, by decide, by decide, by decide⟩, ?_, ?_⟩
  · rw [(codec_roundtrip_spec sampleCodecState [("id", Value.num 33), ("filter", Value.str "desc")]
      (by decide) (by decide) (by decide) (by decide)).2 (by decide) "id"]
    decide
  · rw [(codec_roundtrip_spec sampleCodecState [("id", Value.num 33), ("filter", Value.str "desc")]
      (by decide) (by decide) (by decide) (by decide)).2 (by decide) "filter"]
    decide

end Abyssa
